/-
Verification of the snoopy ingestion core against its specification.

Shallow embedding of the relevant source modules:
  - snoopy/db.py        (Database: batch_insert, watermarks, log_health)
  - snoopy/buffer.py    (EventBuffer: push/push_many/flush)
  - snoopy/collectors/base.py (BaseCollector run loop)
  - snoopy/_python_parsers.py and snoopy/collectors/claude.py
    (extract_attributed_body_text, parse_transcript)

Machine strings/bytes are modelled as Lean String / List Nat; SQLite rows
as lists of a small value type.  Failures that in Python surface as raised
exceptions are modelled with Except.  Failures injected by the environment
(sqlite errors during a write) are modelled by a predicate saying which
tables' inserts raise.
-/
import Mathlib

set_option maxHeartbeats 1000000

/-- A SQL value as it appears in snoopy rows: an integer/real timestamp or a
text column.  (Floats are modelled as integers; no claim depends on real
arithmetic.) -/
inductive Val where
  | i : Int → Val
  | s : String → Val
deriving DecidableEq, Repr

/-- One row of values, matching a positional tuple in Python. -/
abbrev Row := List Val

/-- The `_VALID_TABLES` frozenset of snoopy/db.py (the allow-list). -/
def validTables : List String :=
  ["window_events", "idle_events", "media_events", "browser_events",
   "shell_events", "wifi_events", "clipboard_events", "file_events",
   "claude_events", "network_events", "location_events",
   "notification_events", "audio_events", "message_events",
   "system_events", "app_events", "battery_events", "calendar_events",
   "calendar_changes", "oura_daily",
   "collector_state", "daemon_health"]

/-- The ways a Database call can raise in snoopy/db.py:
`ValueError` for an unknown table, `RuntimeError` from `_ensure_conn` when
the connection is closed, and sqlite-level errors raised by the engine
during a write (injected by the environment). -/
inductive DBError where
  | valueError : String → DBError
  | runtimeError : String → DBError
  | sqliteError : DBError
deriving DecidableEq, Repr

/-- State of one `Database` object together with the persisted file it is
bound to.  `conn` models whether `self._conn` is open; `tables` models the
persisted contents of the event tables (each `batch_insert` commits via
`with conn:`); `collector_state` models the persisted `collector_state`
table keyed by `collector_name` (unique), holding
`(last_watermark, last_run_timestamp)`. -/
structure Database where
  conn : Bool
  tables : List (String × List Row)
  collector_state : List (String × String × Int)
deriving DecidableEq, Repr

/-- Rows currently in a table (empty when the table has no rows yet). -/
def Database.getTable (db : Database) (name : String) : List Row :=
  match db.tables.lookup name with
  | some rows => rows
  | none => []

/-- Replace the row list of one table in the association list, adding the
table at the end when absent. -/
def setTableRows : List (String × List Row) → String → List Row → List (String × List Row)
  | [], name, rows => [(name, rows)]
  | (t, rs) :: rest, name, rows =>
      if t = name then (name, rows) :: rest else (t, rs) :: setTableRows rest name rows

/-- `Database.batch_insert` (db.py:354-372).  Source order is preserved:
`if not rows: return` first, then the allow-list check raising
`ValueError`, then `_ensure_conn` raising `RuntimeError` when closed, then
the parameterized `executemany` inside one transaction, which the
environment may fail (`fail table = true` models a sqlite error raised
during the write; the transaction then leaves the store unchanged). -/
def batch_insert (fail : String → Bool) (db : Database) (table : String)
    (_columns : List String) (rows : List Row) : Except DBError Database :=
  if rows.isEmpty then .ok db
  else if ¬ validTables.contains table then .error (.valueError table)
  else if ¬ db.conn then .error (.runtimeError "database is not open")
  else if fail table then .error .sqliteError
  else .ok { db with tables := setTableRows db.tables table (db.getTable table ++ rows) }

/-- `Database.insert_one` (db.py:374-376): a single-row `batch_insert`. -/
def insert_one (fail : String → Bool) (db : Database) (table : String)
    (columns : List String) (values : Row) : Except DBError Database :=
  batch_insert fail db table columns [values]

/-- `Database.log_health` (db.py:407-413): delegates directly to
`insert_one` on the `daemon_health` table, with no exception handling of
its own. -/
def log_health (fail : String → Bool) (db : Database) (ts : Int)
    (event_type : String) (details : String) : Except DBError Database :=
  insert_one fail db "daemon_health" ["timestamp", "event_type", "details"]
    [Val.i ts, Val.s event_type, Val.s details]

/-- The `ON CONFLICT(collector_name) DO UPDATE` upsert of
`set_watermark`: update the row in place when the key exists, insert a new
row otherwise (a single statement, no read-modify-write). -/
def upsertState : List (String × String × Int) → String → String → Int → List (String × String × Int)
  | [], name, wm, ts => [(name, wm, ts)]
  | (n, x) :: rest, name, wm, ts =>
      if n = name then (name, wm, ts) :: rest else (n, x) :: upsertState rest name wm ts

/-- `Database.get_watermark` (db.py:380-389): `SELECT last_watermark FROM
collector_state WHERE collector_name = ?`, returning `row[0] if row else
None`; `_ensure_conn` raises when the connection is closed. -/
def get_watermark (db : Database) (collector_name : String) : Except DBError (Option String) :=
  if ¬ db.conn then .error (.runtimeError "database is not open")
  else .ok ((db.collector_state.lookup collector_name).map (fun p => p.1))

/-- `Database.set_watermark` (db.py:391-403): single-statement upsert keyed
by `collector_name`, followed by `conn.commit()` (so the new row is
durably persisted). -/
def set_watermark (db : Database) (collector_name : String) (watermark : String)
    (run_ts : Int) : Except DBError Database :=
  if ¬ db.conn then .error (.runtimeError "database is not open")
  else .ok { db with collector_state := upsertState db.collector_state collector_name watermark run_ts }

/-- `Database.close` (db.py:333-344): drops the connection; committed data
stays on disk. -/
def closeDB (db : Database) : Database := { db with conn := false }

/-- Opening a fresh `Database` handle on the same persisted file
(db.py:316-331): the schema script is all `CREATE TABLE IF NOT EXISTS` /
`INSERT OR IGNORE`, so re-applying it leaves committed rows untouched and
only (re)establishes the connection. -/
def openSameFile (db : Database) : Database := { db with conn := true }

/-- A `Database` freshly opened on an empty (just created) file. -/
def freshDatabase : Database := { conn := true, tables := [], collector_state := [] }

/-- One buffered `Event` (buffer.py:13-18): destination table, ordered
column names, positional values. -/
structure Event where
  table : String
  columns : List String
  values : Row
deriving DecidableEq, Repr

/-- The grouping step of `_flush_locked` (buffer.py:51-56): a Python dict
from table name to `(columns, rows)`, keyed in first-occurrence order,
keeping the columns of the first event seen for that table and appending
each event's values tuple in order. -/
def addToGroups : List (String × List String × List Row) → Event → List (String × List String × List Row)
  | [], ev => [(ev.table, ev.columns, [ev.values])]
  | (t, cols, rows) :: rest, ev =>
      if t = ev.table then (t, cols, rows ++ [ev.values]) :: rest
      else (t, cols, rows) :: addToGroups rest ev

/-- `by_table` built by the loop in `_flush_locked` (buffer.py:51-56). -/
def groupByTable (events : List Event) : List (String × List String × List Row) :=
  events.foldl addToGroups []

/-- One iteration of the insert loop of `_flush_locked` (buffer.py:61-65):
`try: self._db.batch_insert(table, columns, rows) except Exception:
log.exception(...)` — on failure the exception is swallowed and the
database keeps the state from the previous iterations. -/
def flushInsertStep (fail : String → Bool) (d : Database)
    (g : String × List String × List Row) : Database :=
  match batch_insert fail d g.1 g.2.1 g.2.2 with
  | .ok d2 => d2
  | .error _ => d

/-- `EventBuffer._flush_locked` (buffer.py:46-67): early-return when the
queue is empty; otherwise group by table, clear the queue
(`self._events.clear()` runs before the inserts), then run the guarded
insert loop once per grouped table.  Returns the resulting database and
the queue contents after the call. -/
def flush_locked (fail : String → Bool) (db : Database) (events : List Event) :
    Database × List Event :=
  if events.isEmpty then (db, events)
  else
    let by_table := groupByTable events
    let db' := by_table.foldl (flushInsertStep fail) db
    (db', [])

/-- The primitive steps of `EventBuffer.flush` visible to other threads,
for reasoning about what happens while the buffer lock is held:
entering/leaving `with self._lock`, the `self._events.clear()` drain, and
each `self._db.batch_insert` call. -/
inductive FlushAction where
  | acquire : FlushAction
  | clearQueue : Nat → FlushAction
  | dbWrite : String → FlushAction
  | release : FlushAction
deriving DecidableEq, Repr

/-- The step trace of `_flush_locked` (buffer.py:46-67): nothing on the
empty early return, otherwise the queue drain followed by one
`batch_insert` per grouped table. -/
def flushLockedTrace (events : List Event) : List FlushAction :=
  if events.isEmpty then []
  else FlushAction.clearQueue events.length ::
    (groupByTable events).map (fun g => FlushAction.dbWrite g.1)

/-- The step trace of `EventBuffer.flush` (buffer.py:41-44): the whole of
`_flush_locked` runs inside `with self._lock`. -/
def flushTrace (events : List Event) : List FlushAction :=
  FlushAction.acquire :: (flushLockedTrace events ++ [FlushAction.release])

/-- Is a step a store write? -/
def isDbWrite : FlushAction → Bool
  | FlushAction.dbWrite _ => true
  | _ => false

/-- Is a step the queue drain? -/
def isClearQueue : FlushAction → Bool
  | FlushAction.clearQueue _ => true
  | _ => false

/-- The property the spec asserts of `flush`: every store write happens
after the buffer lock has been released (so producers never wait on store
I/O).  Formally: no `dbWrite` occurs before the first `release` of the
trace. -/
def writesAfterRelease (tr : List FlushAction) : Bool :=
  (tr.takeWhile (fun a => a ≠ FlushAction.release)).all (fun a => ¬ isDbWrite a)

/-- Every store write happens while the lock is held: no `dbWrite` occurs
at or after the first `release`. -/
def writesUnderLock (tr : List FlushAction) : Bool :=
  (tr.dropWhile (fun a => a ≠ FlushAction.release)).all (fun a => ¬ isDbWrite a)

/-- The queue drain precedes every store write in the trace. -/
def drainPrecedesWrites (tr : List FlushAction) : Bool :=
  (tr.takeWhile (fun a => ¬ isClearQueue a)).all (fun a => ¬ isDbWrite a)

/-- State of one collector thread as driven by `BaseCollector._run_loop`
(base.py:80-86): whether `self._stop_event` is set and how many loop
iterations have completed. -/
structure CollectorState where
  stopSet : Bool
  ticks : Nat
deriving DecidableEq, Repr

/-- `BaseCollector.running` (base.py:68-70): `not self._stop_event.is_set()`. -/
def running (st : CollectorState) : Bool := ¬ st.stopSet

/-- The `try: self.collect() except Exception: log.exception(...)` body of
one loop iteration (base.py:82-85): whatever `collect` does — including
raising — the exception is swallowed and the iteration completes. -/
def collectGuarded (collect : Nat → Except String Unit) (k : Nat) : Except String Unit :=
  match collect k with
  | .ok _ => .ok ()
  | .error _ => .ok ()

/-- `BaseCollector._run_loop` (base.py:80-86), run for `fuel` scheduled
ticks: while the stop event is unset, run one guarded `collect` and wait
for the next tick.  The result is `.error e` exactly when an exception
escapes the loop body and kills the thread. -/
def run_loop (collect : Nat → Except String Unit) (fuel : Nat) (st : CollectorState) :
    Except String CollectorState :=
  match fuel with
  | 0 => .ok st
  | n + 1 =>
      if st.stopSet then .ok st
      else
        match collectGuarded collect st.ticks with
        | .ok _ => run_loop collect n { st with ticks := st.ticks + 1 }
        | .error e => .error e

/-- Bytes are modelled as natural numbers (a faithful blob byte is < 256;
no operation below depends on the bound). -/
abbrev Bytes := List Nat

/-- Python `bytes.find(pat)` scanning from position `i`: the first absolute
index at which `pat` occurs, `none` when it does not (Python returns -1). -/
def findSubAux (bs pat : Bytes) (i : Nat) : Option Nat :=
  if pat.isPrefixOf bs then some i
  else
    match bs with
    | [] => none
    | _ :: t => findSubAux t pat (i + 1)

/-- Python `bytes.find(pat, start)`: search only in `blob[start:]`,
returning an absolute index. -/
def findSub (blob pat : Bytes) (start : Nat) : Option Nat :=
  findSubAux (blob.drop start) pat start

/-- The `b"NSString"` marker of `extract_attributed_body_text`. -/
def nsMarker : Bytes := [78, 83, 83, 116, 114, 105, 110, 103]

/-- `extract_attributed_body_text` (_python_parsers.py:15-36, identical in
collectors/messages.py), modelled up to the final
`.decode("utf-8", errors="replace")`: the function below returns the byte
slice the source decodes.  The decode step is a pure function of these
bytes that maps `[]` to `""`, never raises (`errors="replace"`), maps a
nonempty byte list to a nonempty string, and maps a valid UTF-8 encoding
back to the encoded string — so "returns the empty string" corresponds
exactly to this function returning `[]`.  Python slice semantics clamp
`blob[text_start : text_start + text_len]` at the end of the blob. -/
def extract_attributed_body_text (blob : Bytes) : Bytes :=
  if blob.isEmpty then []
  else
    match findSub blob nsMarker 0 with
    | none => []
    | some idx =>
      let search_start := idx + nsMarker.length
      match findSub blob [1, 43] search_start with
      | none => []
      | some plus_idx =>
        let length_offset := plus_idx + 2
        if length_offset ≥ blob.length then []
        else
          let text_len := blob.getD length_offset 0
          let text_start := length_offset + 1
          (blob.drop text_start).take text_len

/-- Does `pat` occur as a contiguous substring of `bs`? (Used to state the
round-trip hypothesis on the random prefix.) -/
def containsSub (bs pat : Bytes) : Bool :=
  (findSub bs pat 0).isSome

/-- The `build` of the spec's round-trip property (§8): wrap the payload
with the marker, the two-byte `\x01+` type tag and the length byte, between
arbitrary prefix and suffix bytes. -/
def buildBlob (pre s suf : Bytes) : Bytes :=
  pre ++ nsMarker ++ [1, 43] ++ [s.length] ++ s ++ suf

/-- Python text-mode line iteration over the remaining bytes: split after
every newline byte, with a trailing chunk that lacks a terminating newline
(Python's `for line in f` yields that final partial line too). -/
def pyLines : Bytes → List Bytes
  | [] => []
  | b :: t =>
      if b = 10 then [10] :: pyLines t
      else
        match pyLines t with
        | [] => [[b]]
        | l :: ls => (b :: l) :: ls

/-- Python `str.strip()` whitespace at the byte level. -/
def isPySpace (b : Nat) : Bool :=
  b = 32 || b = 9 || b = 10 || b = 13 || b = 11 || b = 12

/-- Python `line.strip()`. -/
def stripPy (l : Bytes) : Bytes :=
  ((l.dropWhile isPySpace).reverse.dropWhile isPySpace).reverse

/-- `parse_transcript` (_python_parsers.py:49-130 and collectors/claude.py:
28-110), modelled up to the JSON classification of each line: `seek` to
`since_offset`, iterate lines to end-of-file, and return `f.tell()`.  The
first component is the list of stripped, non-blank lines the loop hands to
`json.loads` — the source's record list is a pure function of exactly these
lines (blank lines are `continue`d before decoding), so a line is
"classified into records" iff it appears here.  The returned offset is the
file position after the iteration: the seek position plus the length of
every yielded line. -/
def parse_transcript (file : Bytes) (since_offset : Nat) : List Bytes × Nat :=
  let rest := file.drop since_offset
  let ls := pyLines rest
  let final_offset := ls.foldl (fun p l => p + l.length) since_offset
  ((ls.map stripPy).filter (fun l => ¬ l.isEmpty), final_offset)

/-- The offset the spec says `parse_transcript` returns (§4.1): the byte
offset just past the last fully consumed, newline-terminated line, leaving
a trailing partial line unconsumed.  Stated from the spec's words, for
comparison with the source's behaviour. -/
def specClaimedOffset (file : Bytes) (since_offset : Nat) : Nat :=
  let rest := file.drop since_offset
  since_offset + (rest.length - (rest.reverse.takeWhile (fun b => b ≠ 10)).length)

/-- Run a sequence of `set_watermark` calls against one store handle,
threading the state through (used to state the last-writer-wins part of
the watermark claim; on an open handle no call in the sequence errors). -/
def applySets (db : Database) (ops : List (String × String × Int)) : Database :=
  ops.foldl
    (fun d op =>
      match set_watermark d op.1 op.2.1 op.2.2 with
      | .ok d' => d'
      | .error _ => d) db

/-- The cursor of the most recent `set_watermark` call for `name` in a
sequence of calls, if any (the claim's "most recently written cursor"). -/
def lastSetFor (name : String) : List (String × String × Int) → Option String
  | [] => none
  | op :: rest =>
      match lastSetFor name rest with
      | some w => some w
      | none => if op.1 = name then some op.2.1 else none

/-- The rows grouped under table `t` by `_flush_locked`'s `by_table` dict. -/
def rowsForGroups (t : String) (groups : List (String × List String × List Row)) : List Row :=
  match groups.lookup t with
  | some g => g.2
  | none => []

/-! ### Helper lemmas -/

theorem lookup_upsertState (cs : List (String × String × Int)) (n w : String) (t : Int)
    (m : String) :
    (upsertState cs n w t).lookup m = if m = n then some (w, t) else cs.lookup m := by
  induction cs with
  | nil =>
      by_cases h : m = n
      · simp [upsertState, List.lookup, h]
      · simp [upsertState, List.lookup, h, beq_eq_false_iff_ne.mpr h]
  | cons a rest ih =>
      obtain ⟨k, x⟩ := a
      by_cases hk : k = n
      · subst hk
        by_cases h : m = k
        · simp [upsertState, List.lookup, h]
        · simp [upsertState, List.lookup, h, beq_eq_false_iff_ne.mpr h]
      · by_cases h : m = k
        · subst h
          simp [upsertState, List.lookup, hk, Ne.symm hk]
        · simp [upsertState, List.lookup, hk, h, ih, beq_eq_false_iff_ne.mpr h]

theorem lookup_setTableRows (l : List (String × List Row)) (n : String) (rows : List Row)
    (m : String) :
    (setTableRows l n rows).lookup m = if m = n then some rows else l.lookup m := by
  induction l with
  | nil =>
      by_cases h : m = n
      · simp [setTableRows, List.lookup, h]
      · simp [setTableRows, List.lookup, h, beq_eq_false_iff_ne.mpr h]
  | cons a rest ih =>
      obtain ⟨k, x⟩ := a
      by_cases hk : k = n
      · subst hk
        by_cases h : m = k
        · simp [setTableRows, List.lookup, h]
        · simp [setTableRows, List.lookup, h, beq_eq_false_iff_ne.mpr h]
      · by_cases h : m = k
        · subst h
          simp [setTableRows, List.lookup, hk, Ne.symm hk]
        · simp [setTableRows, List.lookup, hk, h, ih, beq_eq_false_iff_ne.mpr h]

/-! ### C10 — empty batch_insert is a guarded no-op -/

/-- C10: `batch_insert(table, columns, [])` returns immediately as a no-op
and never raises, even for an unknown table and even on an unopened
database: the `if not rows: return` guard runs before the allow-list check
and before `_ensure_conn`, so both are skipped when `rows` is empty. -/
theorem batch_insert_empty_rows_noop (fail : String → Bool) (db : Database)
    (table : String) (columns : List String) :
    batch_insert fail db table columns [] = Except.ok db := rfl

/-! ### C6 — unknown tables are rejected -/

/-- C6 (counterexample): the claim "for every call where the table is not
in the allow-list, the call is rejected with a ValueError" fails on an
empty rows list: `batch_insert("bogus", ["c"], [])` returns normally
because the empty-rows guard runs before the table validation. -/
theorem batch_insert_unknown_table_not_always_rejected :
    validTables.contains "bogus" = false ∧
    batch_insert (fun _ => false) freshDatabase "bogus" ["c"] [] =
      Except.ok freshDatabase :=
  ⟨by decide, rfl⟩

/-- C6 (amended): every call with a non-empty rows list and a table
outside the allow-list is rejected with a ValueError (and, the call
erroring before any write, no rows are inserted). -/
theorem batch_insert_rejects_unknown_table (fail : String → Bool) (db : Database)
    (table : String) (columns : List String) (rows : List Row)
    (hrows : rows ≠ []) (htab : validTables.contains table = false) :
    batch_insert fail db table columns rows = Except.error (DBError.valueError table) := by
  unfold batch_insert
  have h1 : rows.isEmpty = false := by
    cases rows with
    | nil => exact absurd rfl hrows
    | cons a l => rfl
  have hmem : table ∉ validTables := by simpa using htab
  simp [h1, hmem]

/-- C6 witness: the amended theorem applied at a concrete call. -/
theorem batch_insert_rejects_unknown_table_witness :
    ([[Val.i 1]] : List Row) ≠ [] ∧ validTables.contains "bogus" = false ∧
    batch_insert (fun _ => false) freshDatabase "bogus" ["c"] [[Val.i 1]] =
      Except.error (DBError.valueError "bogus") :=
  ⟨by decide, by decide,
    batch_insert_rejects_unknown_table (fun _ => false) freshDatabase "bogus" ["c"]
      [[Val.i 1]] (by decide) (by decide)⟩

/-! ### C7 — log_health does not absorb failures -/

/-- C7 (counterexample): the claim "a failure inside log_health never
propagates to the caller" is false: on a closed database the underlying
`_ensure_conn` raises RuntimeError and `log_health` — which has no
try/except of its own — propagates it. -/
theorem log_health_closed_db_raises :
    log_health (fun _ => false) (closeDB freshDatabase) 1 "startup" "pid=1" =
      Except.error (DBError.runtimeError "database is not open") := rfl

/-- C7 (amended): `log_health` performs a single-row insert into
`daemon_health` with no exception handling, so it raises exactly when that
insert fails — when the connection is closed or the write itself errors —
and the failure propagates to the caller. -/
theorem log_health_error_iff (fail : String → Bool) (db : Database) (ts : Int)
    (kind details : String) :
    (∃ e, log_health fail db ts kind details = Except.error e) ↔
      (db.conn = false ∨ fail "daemon_health" = true) := by
  unfold log_health insert_one batch_insert
  have hval : "daemon_health" ∈ validTables := by decide
  cases hc : db.conn <;> cases hf : fail "daemon_health" <;>
    simp [hval, hc, hf]

/-! ### C8 — collector fault isolation -/

/-- C8: any exception raised by `collect()` is caught inside the run loop
(base.py:82-85) and the loop continues at the next scheduled tick: for
every `collect` — including one that raises on every call — `fuel` ticks of
`_run_loop` complete normally (no exception escapes the thread, the result
is `.ok`), every tick runs, and the collector is still observable as
`running`. -/
theorem collector_fault_isolation (collect : Nat → Except String Unit) (fuel t : Nat) :
    run_loop collect fuel ⟨false, t⟩ = Except.ok ⟨false, t + fuel⟩ ∧
    running ⟨false, t + fuel⟩ = true := by
  refine ⟨?_, rfl⟩
  induction fuel generalizing t with
  | zero => rfl
  | succ n ih =>
      have hg : collectGuarded collect t = Except.ok () := by
        unfold collectGuarded
        cases collect t <;> rfl
      have hstep : run_loop collect (n + 1) ⟨false, t⟩ = run_loop collect n ⟨false, t + 1⟩ := by
        simp [run_loop, hg]
      rw [hstep, ih (t + 1)]
      have harith : t + 1 + n = t + (n + 1) := by omega
      rw [harith]

/-! ### C9 — flush holds the lock during store writes -/

/-- C9 (counterexample): the claim that `flush` releases the buffer lock
before performing the store writes is false: with one pending event, the
`batch_insert` step of the flush trace occurs before the lock release
(the whole of `_flush_locked`, inserts included, runs inside
`with self._lock`). -/
theorem flush_writes_not_after_release :
    writesAfterRelease
      (flushTrace [⟨"window_events", ["timestamp"], [Val.i 1]⟩]) = false := by
  decide

/-- Auxiliary: dropping while a predicate holds over a block that wholly
satisfies it, followed by one failing element, leaves that element. -/
theorem dropWhile_all_append {α : Type} (p : α → Bool) (l : List α) (r : α)
    (h : ∀ a ∈ l, p a = true) (hr : p r = false) :
    (l ++ [r]).dropWhile p = [r] := by
  induction l with
  | nil => simp [List.dropWhile, hr]
  | cons a l ih =>
      have ha : p a = true := h a (by simp)
      simp only [List.cons_append, List.dropWhile, ha]
      exact ih (fun b hb => h b (by simp [hb]))

/-- C9 (amended): `flush` drains the entire pending queue before any store
write (so a failed insert can never be re-queued and producers' events
never mix into an in-flight batch), but it performs every `batch_insert`
while still holding the buffer lock — no store write occurs after the lock
release, so a concurrent `push`/`push_many` waits for the store I/O of the
flush to finish. -/
theorem flush_writes_under_lock (events : List Event) :
    writesUnderLock (flushTrace events) = true ∧
    drainPrecedesWrites (flushTrace events) = true := by
  constructor
  · unfold writesUnderLock flushTrace
    rw [List.dropWhile_cons_of_pos (by decide), dropWhile_all_append]
    · rfl
    · intro a ha
      unfold flushLockedTrace at ha
      by_cases he : events.isEmpty
      · simp [he] at ha
      · simp only [he, Bool.false_eq_true, if_false, List.mem_cons] at ha
        rcases ha with h1 | h2
        · subst h1; rfl
        · obtain ⟨g, _, hg⟩ := List.mem_map.mp h2
          rw [← hg]; rfl
    · rfl
  · unfold drainPrecedesWrites flushTrace flushLockedTrace
    by_cases he : events.isEmpty
    · simp [he, List.takeWhile, isClearQueue, isDbWrite]
    · simp [he, List.takeWhile, isClearQueue, isDbWrite]

/-! ### C3 — watermark protocol -/

/-- C3: `get_watermark(x)` is `None` on a fresh store; after
`set_watermark(x, v, t)` the value is committed so a fresh handle opened on
the same persisted file reads it back; and `set_watermark` is a
single-statement last-writer-wins upsert keyed by collector name, so after
any sequence of calls the store returns the most recently written cursor
(and never rolls a watermark back by itself). -/
theorem watermark_protocol :
    (∀ name, get_watermark freshDatabase name = Except.ok none) ∧
    (∀ (db db' : Database) (name v : String) (t : Int),
      set_watermark db name v t = Except.ok db' →
      get_watermark (openSameFile (closeDB db')) name = Except.ok (some v)) ∧
    (∀ (db : Database) (ops : List (String × String × Int)) (name : String),
      db.conn = true →
      get_watermark (applySets db ops) name =
        Except.ok (match lastSetFor name ops with
          | some w => some w
          | none => (db.collector_state.lookup name).map (fun p => p.1))) := by
  refine ⟨fun name => rfl, ?_, ?_⟩
  · intro db db' name v t hset
    cases hc : db.conn with
    | false => simp [set_watermark, hc] at hset
    | true =>
        simp [set_watermark, hc] at hset
        subst hset
        unfold get_watermark openSameFile closeDB
        simp [lookup_upsertState]
  · intro db ops name hconn
    induction ops generalizing db with
    | nil =>
        unfold applySets get_watermark lastSetFor
        simp [hconn]
    | cons op ops ih =>
        have hset : set_watermark db op.1 op.2.1 op.2.2 = Except.ok { db with collector_state := upsertState db.collector_state op.1 op.2.1 op.2.2 } := by
          simp [set_watermark, hconn]
        have hfold : applySets db (op :: ops) = applySets { db with collector_state := upsertState db.collector_state op.1 op.2.1 op.2.2 } ops := by
          unfold applySets
          simp only [List.foldl_cons, hset]
        rw [hfold, ih { db with collector_state := upsertState db.collector_state op.1 op.2.1 op.2.2 } hconn]
        simp only [lookup_upsertState]
        cases hl : lastSetFor name ops with
        | some w => simp [lastSetFor, hl]
        | none =>
            by_cases hn : name = op.1
            · subst hn
              simp [lastSetFor, hl]
            · have hn2 : ¬ op.1 = name := fun h => hn h.symm
              simp [lastSetFor, hl, hn, hn2]

/-- C3 witness: the watermark theorem applied at concrete stores, sequences
and names. -/
theorem watermark_protocol_witness :
    get_watermark freshDatabase "x" = Except.ok none ∧
    get_watermark (openSameFile (closeDB
      { conn := true, tables := [], collector_state := [("x", "42", 7)] })) "x" =
        Except.ok (some "42") ∧
    get_watermark (applySets freshDatabase [("x", "1", 1), ("y", "7", 2), ("x", "42", 3)]) "x" =
      Except.ok (some "42") :=
  ⟨watermark_protocol.1 "x",
   watermark_protocol.2.1 freshDatabase _ "x" "42" 7 rfl,
   watermark_protocol.2.2 freshDatabase [("x", "1", 1), ("y", "7", 2), ("x", "42", 3)] "x" rfl⟩

/-! ### C2 — per-table failure isolation in flush -/

theorem getTable_setTableRows (db : Database) (n : String) (rows : List Row) (t : String) :
    Database.getTable { db with tables := setTableRows db.tables n rows } t =
      if t = n then rows else db.getTable t := by
  unfold Database.getTable
  simp only [lookup_setTableRows]
  by_cases h : t = n <;> simp [h]

theorem flushInsertStep_spec (fail : String → Bool) (db : Database)
    (g : String × List String × List Row) (hconn : db.conn = true) :
    (flushInsertStep fail db g).conn = true ∧
    (∀ t, t ≠ g.1 → (flushInsertStep fail db g).getTable t = db.getTable t) ∧
    (validTables.contains g.1 = true → fail g.1 = false →
      (flushInsertStep fail db g).getTable g.1 = db.getTable g.1 ++ g.2.2) ∧
    (fail g.1 = true → (flushInsertStep fail db g).getTable g.1 = db.getTable g.1) := by
  cases hre : g.2.2.isEmpty with
  | true =>
      have hnil : g.2.2 = [] := by
        cases hg : g.2.2 with
        | nil => rfl
        | cons a l => rw [hg] at hre; simp at hre
      have hres : batch_insert fail db g.1 g.2.1 g.2.2 = Except.ok db := by
        unfold batch_insert
        simp [hre]
      simp only [flushInsertStep]
      rw [hres]
      simp [hnil, hconn]
  | false =>
      by_cases hv : g.1 ∈ validTables
      · cases hf : fail g.1 with
        | true =>
            have hres : batch_insert fail db g.1 g.2.1 g.2.2 =
                Except.error DBError.sqliteError := by
              unfold batch_insert
              simp [hre, hv, hconn, hf]
            simp only [flushInsertStep]
            rw [hres]
            simp [hconn, hf]
        | false =>
            have hres : batch_insert fail db g.1 g.2.1 g.2.2 =
                Except.ok { db with tables := setTableRows db.tables g.1 (db.getTable g.1 ++ g.2.2) } := by
              unfold batch_insert
              simp [hre, hv, hconn, hf]
            refine ⟨by simp only [flushInsertStep]; rw [hres]; simp [hconn], ?_, ?_, ?_⟩
            · intro t ht
              simp only [flushInsertStep]
              rw [hres]
              simp [getTable_setTableRows, ht]
            · intro _ _
              simp only [flushInsertStep]
              rw [hres]
              simp [getTable_setTableRows]
            · intro hcontra
              simp at hcontra
      · have hres : batch_insert fail db g.1 g.2.1 g.2.2 =
            Except.error (DBError.valueError g.1) := by
          unfold batch_insert
          simp [hre, hv]
        have hcont : validTables.contains g.1 = false := by simpa using hv
        refine ⟨by simp only [flushInsertStep]; rw [hres]; exact hconn, ?_, ?_, ?_⟩
        · intro t ht
          simp only [flushInsertStep]
          rw [hres]
        · intro hc _
          rw [hc] at hcont
          simp at hcont
        · intro _
          simp only [flushInsertStep]
          rw [hres]

theorem rowsForGroups_nil_of_notmem (t : String) :
    ∀ (gs : List (String × List String × List Row)), t ∉ gs.map (fun g => g.1) →
    rowsForGroups t gs = [] := by
  intro gs
  induction gs with
  | nil => intro _; rfl
  | cons g rest ih =>
      obtain ⟨k, cr⟩ := g
      intro h
      simp only [List.map_cons, List.mem_cons, not_or] at h
      obtain ⟨h1, h2⟩ := h
      have hr : rowsForGroups t rest = [] := ih h2
      unfold rowsForGroups at hr ⊢
      simp only [List.lookup, beq_eq_false_iff_ne.mpr h1]
      exact hr

theorem flushFold_spec (fail : String → Bool)
    (groups : List (String × List String × List Row)) :
    ∀ (db : Database), db.conn = true →
    (groups.map (fun g => g.1)).Nodup →
    ((groups.foldl (flushInsertStep fail) db).conn = true ∧
     (∀ t, validTables.contains t = true → fail t = false →
       (groups.foldl (flushInsertStep fail) db).getTable t =
         db.getTable t ++ rowsForGroups t groups) ∧
     (∀ t, fail t = true →
       (groups.foldl (flushInsertStep fail) db).getTable t = db.getTable t)) := by
  induction groups with
  | nil =>
      intro db hconn _
      refine ⟨hconn, ?_, ?_⟩
      · intro t _ _
        simp [rowsForGroups, List.lookup]
      · intro t _
        rfl
  | cons g gs ih =>
      obtain ⟨gt, gcr⟩ := g
      intro db hconn hnd
      simp only [List.map_cons, List.nodup_cons] at hnd
      obtain ⟨hnotmem, hnd2⟩ := hnd
      obtain ⟨hc1, hc2, hc3, hc4⟩ := flushInsertStep_spec fail db (gt, gcr) hconn
      obtain ⟨ih1, ih2, ih3⟩ := ih (flushInsertStep fail db (gt, gcr)) hc1 hnd2
      simp only [List.foldl_cons]
      refine ⟨ih1, ?_, ?_⟩
      · intro t hval hfail
        rw [ih2 t hval hfail]
        by_cases ht : t = gt
        · rw [ht] at hval hfail ⊢
          rw [rowsForGroups_nil_of_notmem gt gs hnotmem, hc3 hval hfail]
          have hhd : rowsForGroups gt ((gt, gcr) :: gs) = gcr.2 := by
            simp [rowsForGroups, List.lookup]
          rw [hhd]
          simp
        · rw [hc2 t ht]
          have hhd : rowsForGroups t ((gt, gcr) :: gs) = rowsForGroups t gs := by
            simp [rowsForGroups, List.lookup, beq_eq_false_iff_ne.mpr ht]
          rw [hhd]
      · intro t hfail
        rw [ih3 t hfail]
        by_cases ht : t = gt
        · rw [ht] at hfail ⊢
          exact hc4 hfail
        · exact hc2 t ht

theorem rowsForGroups_addToGroups (ev : Event) (t : String) :
    ∀ (acc : List (String × List String × List Row)),
    rowsForGroups t (addToGroups acc ev) =
      rowsForGroups t acc ++ (if ev.table = t then [ev.values] else []) := by
  intro acc
  induction acc with
  | nil =>
      by_cases h : t = ev.table
      · rw [h]
        simp [addToGroups, rowsForGroups, List.lookup]
      · have h2 : ¬ ev.table = t := fun hh => h hh.symm
        simp [addToGroups, rowsForGroups, List.lookup, beq_eq_false_iff_ne.mpr h, h2]
  | cons a rest ih =>
      obtain ⟨k, cols, rows⟩ := a
      by_cases hk : k = ev.table
      · by_cases ht : t = k
        · rw [ht, hk]
          simp [addToGroups, rowsForGroups, List.lookup]
        · have ht2 : ¬ ev.table = t := by
            rw [← hk]
            exact fun hh => ht hh.symm
          have htb : (t == ev.table) = false :=
            beq_eq_false_iff_ne.mpr (fun hh => ht (hh.trans hk.symm))
          simp [addToGroups, rowsForGroups, List.lookup, hk,
            beq_eq_false_iff_ne.mpr ht, ht2, htb]
      · by_cases ht : t = k
        · have ht3 : ¬ ev.table = k := fun hh => hk hh.symm
          rw [ht]
          simp [addToGroups, rowsForGroups, List.lookup, hk, ht3]
        · simp only [addToGroups, hk, if_neg]
          unfold rowsForGroups at ih ⊢
          simp only [List.lookup, beq_eq_false_iff_ne.mpr ht]
          exact ih

theorem rowsForGroups_foldl (events : List Event) :
    ∀ (acc : List (String × List String × List Row)) (t : String),
    rowsForGroups t (events.foldl addToGroups acc) =
      rowsForGroups t acc ++
        (events.filter (fun ev => ev.table = t)).map (fun ev => ev.values) := by
  induction events with
  | nil =>
      intro acc t
      simp
  | cons ev evs ih =>
      intro acc t
      simp only [List.foldl_cons]
      rw [ih (addToGroups acc ev) t, rowsForGroups_addToGroups]
      by_cases h : ev.table = t
      · simp [h, List.filter_cons]
      · simp [h, List.filter_cons]

theorem rowsForGroups_groupByTable (events : List Event) (t : String) :
    rowsForGroups t (groupByTable events) =
      (events.filter (fun ev => ev.table = t)).map (fun ev => ev.values) := by
  unfold groupByTable
  rw [rowsForGroups_foldl]
  rfl

theorem keys_addToGroups (ev : Event) :
    ∀ (acc : List (String × List String × List Row)),
    (addToGroups acc ev).map (fun g => g.1) =
      if ev.table ∈ acc.map (fun g => g.1) then acc.map (fun g => g.1)
      else acc.map (fun g => g.1) ++ [ev.table] := by
  intro acc
  induction acc with
  | nil => simp [addToGroups]
  | cons a rest ih =>
      obtain ⟨k, cols, rows⟩ := a
      by_cases hk : k = ev.table
      · rw [hk]
        simp [addToGroups]
      · have hk2 : ¬ ev.table = k := fun hh => hk hh.symm
        simp only [addToGroups, hk, if_neg, List.map_cons, ih]
        by_cases h2 : ev.table ∈ rest.map (fun g => g.1) <;>
          simp [h2, hk2, ih]

theorem keys_groupByTable_nodup (events : List Event) :
    ∀ (acc : List (String × List String × List Row)),
    (acc.map (fun g => g.1)).Nodup →
    ((events.foldl addToGroups acc).map (fun g => g.1)).Nodup := by
  induction events with
  | nil => intro acc h; exact h
  | cons ev evs ih =>
      intro acc h
      simp only [List.foldl_cons]
      apply ih
      rw [keys_addToGroups]
      by_cases hm : ev.table ∈ acc.map (fun g => g.1)
      · simp [hm, h]
      · simp only [hm, if_neg, if_false]
        rw [List.nodup_append]
        refine ⟨h, List.nodup_singleton _, ?_⟩
        intro x hx hmem
        simp only [List.mem_singleton] at hmem
        rw [hmem] at hx
        exact hm hx

/-- C2: in a single flush spanning several destination tables, a failing
`batch_insert` is caught per table and the remaining tables' inserts still
run: after `_flush_locked`, the pending queue is empty regardless of which
inserts failed, every valid non-failing table holds exactly its drained
rows (in order), and a failing table's rows are dropped — neither retried
nor re-queued. -/
theorem flush_failure_isolated (fail : String → Bool) (db : Database)
    (events : List Event) (hconn : db.conn = true) :
    (flush_locked fail db events).2 = [] ∧
    (∀ t, validTables.contains t = true → fail t = false →
      ((flush_locked fail db events).1).getTable t =
        db.getTable t ++ (events.filter (fun ev => ev.table = t)).map (fun ev => ev.values)) ∧
    (∀ t, fail t = true →
      ((flush_locked fail db events).1).getTable t = db.getTable t) := by
  cases he : events.isEmpty with
  | true =>
      have hnil : events = [] := by
        cases hg : events with
        | nil => rfl
        | cons a l => rw [hg] at he; simp at he
      subst hnil
      refine ⟨rfl, ?_, ?_⟩
      · intro t _ _
        simp [flush_locked]
      · intro t _
        rfl
  | false =>
      have hnd : ((groupByTable events).map (fun g => g.1)).Nodup :=
        keys_groupByTable_nodup events [] (by simp)
      obtain ⟨h1, h2, h3⟩ := flushFold_spec fail (groupByTable events) db hconn hnd
      have hfl : flush_locked fail db events =
          ((groupByTable events).foldl (flushInsertStep fail) db, []) := by
        unfold flush_locked
        simp [he]
      rw [hfl]
      refine ⟨rfl, ?_, ?_⟩
      · intro t hval hfail
        rw [h2 t hval hfail, rowsForGroups_groupByTable]
      · intro t hfail
        exact h3 t hfail

/-- C2 witness: a flush of three events over two tables with the
`idle_events` insert failing — the queue drains, `window_events` still
receives both its rows, and the failed table's rows are dropped. -/
theorem flush_failure_isolated_witness :
    freshDatabase.conn = true ∧
    (flush_locked (fun t => t == "idle_events") freshDatabase
      [⟨"window_events", ["timestamp"], [Val.i 1]⟩,
       ⟨"idle_events", ["timestamp"], [Val.i 2]⟩,
       ⟨"window_events", ["timestamp"], [Val.i 3]⟩]).2 = [] ∧
    ((flush_locked (fun t => t == "idle_events") freshDatabase
      [⟨"window_events", ["timestamp"], [Val.i 1]⟩,
       ⟨"idle_events", ["timestamp"], [Val.i 2]⟩,
       ⟨"window_events", ["timestamp"], [Val.i 3]⟩]).1).getTable "window_events" =
      [[Val.i 1], [Val.i 3]] ∧
    ((flush_locked (fun t => t == "idle_events") freshDatabase
      [⟨"window_events", ["timestamp"], [Val.i 1]⟩,
       ⟨"idle_events", ["timestamp"], [Val.i 2]⟩,
       ⟨"window_events", ["timestamp"], [Val.i 3]⟩]).1).getTable "idle_events" = [] := by
  have h := flush_failure_isolated (fun t => t == "idle_events") freshDatabase
    [⟨"window_events", ["timestamp"], [Val.i 1]⟩,
     ⟨"idle_events", ["timestamp"], [Val.i 2]⟩,
     ⟨"window_events", ["timestamp"], [Val.i 3]⟩] rfl
  refine ⟨rfl, h.1, ?_, ?_⟩
  · have h2 := h.2.1 "window_events" (by decide) (by decide)
    rw [h2]
    decide
  · have h3 := h.2.2 "idle_events" (by decide)
    rw [h3]
    rfl

/-! ### C1 — parse_transcript offset behaviour -/

theorem pyLines_ne_nil (b : Nat) (t : Bytes) : pyLines (b :: t) ≠ [] := by
  by_cases hb : b = 10
  · simp [pyLines, hb]
  · simp only [pyLines, hb, if_neg]
    cases pyLines t <;> simp

theorem pyLines_eq_nil (t : Bytes) (h : pyLines t = []) : t = [] := by
  cases t with
  | nil => rfl
  | cons b t' => exact absurd h (pyLines_ne_nil b t')

theorem pyLines_sum_lengths : ∀ (bs : Bytes), ((pyLines bs).map List.length).sum = bs.length := by
  intro bs
  induction bs with
  | nil => rfl
  | cons b t ih =>
      by_cases hb : b = 10
      · simp [pyLines, hb]
        omega
      · cases hp : pyLines t with
        | nil =>
            have ht : t = [] := pyLines_eq_nil t hp
            subst ht
            simp [pyLines, hb]
        | cons l ls =>
            rw [hp] at ih
            simp only [List.map_cons, List.sum_cons] at ih
            simp [pyLines, hb, hp]
            omega

theorem foldl_add_lengths (ls : List Bytes) : ∀ (acc : Nat),
    ls.foldl (fun p l => p + l.length) acc = acc + (ls.map List.length).sum := by
  induction ls with
  | nil => intro acc; simp
  | cons l ls ih =>
      intro acc
      simp only [List.foldl_cons, List.map_cons, List.sum_cons, ih]
      omega

/-- C1 (counterexample): on the two-byte file "ab" with no terminating
newline, `parse_transcript` consumes the trailing partial line — it is
handed to the JSON-decode stage — and returns offset 2 (end of file),
while the claim says the offset after the last fully consumed
newline-terminated line, which is 0. -/
theorem parse_transcript_consumes_partial_line :
    (parse_transcript [97, 98] 0).2 ≠ specClaimedOffset [97, 98] 0 ∧
    (parse_transcript [97, 98] 0).2 = 2 ∧
    specClaimedOffset [97, 98] 0 = 0 ∧
    (parse_transcript [97, 98] 0).1 = [[97, 98]] := by
  refine ⟨by decide, by decide, by decide, by decide⟩

/-- C1 (amended): `parse_transcript` iterates to end-of-file and returns
the offset there, so the whole remainder — a trailing partial line
included — is consumed and classified in this call.  A subsequent call
with the returned offset reads only bytes appended afterwards: parsing
`file ++ extra` from the returned offset processes exactly the lines of
`extra`, so no line whose bytes were already consumed is ever reprocessed
(but a partial line consumed at EOF is not re-read once completed). -/
theorem parse_transcript_offset_eof (file : Bytes) (since_offset : Nat) (extra : Bytes)
    (h : since_offset ≤ file.length) :
    (parse_transcript file since_offset).2 = file.length ∧
    (parse_transcript (file ++ extra) (parse_transcript file since_offset).2).1 =
      (parse_transcript extra 0).1 := by
  have hoff : (parse_transcript file since_offset).2 = file.length := by
    unfold parse_transcript
    dsimp only
    rw [foldl_add_lengths, pyLines_sum_lengths, List.length_drop]
    omega
  refine ⟨hoff, ?_⟩
  rw [hoff]
  unfold parse_transcript
  dsimp only
  rw [List.drop_left, List.drop_zero]

/-- C1 witness: the amended theorem at a concrete file, offset and
appended tail. -/
theorem parse_transcript_offset_eof_witness :
    (1 ≤ ([97, 10, 98] : Bytes).length) ∧
    (parse_transcript [97, 10, 98] 1).2 = ([97, 10, 98] : Bytes).length ∧
    (parse_transcript ([97, 10, 98] ++ [99, 10]) (parse_transcript [97, 10, 98] 1).2).1 =
      (parse_transcript [99, 10] 0).1 :=
  ⟨by decide, parse_transcript_offset_eof [97, 10, 98] 1 [99, 10] (by decide)⟩

/-! ### C4 and C5 — blob extraction -/

theorem nsMarker_no_border : ∀ k, k < 8 → 0 < k → nsMarker.drop k ≠ nsMarker.take (8 - k) := by
  decide

theorem ns_no_overlap (bp rest : Bytes) (hne : bp ≠ [])
    (hpre : nsMarker.isPrefixOf bp = false) :
    nsMarker.isPrefixOf (bp ++ (nsMarker ++ rest)) = false := by
  apply eq_false_of_ne_true
  intro h
  have hp : nsMarker <+: bp ++ (nsMarker ++ rest) := List.isPrefixOf_iff_prefix.mp h
  have htake : nsMarker = (bp ++ (nsMarker ++ rest)).take 8 := List.prefix_iff_eq_take.mp hp
  by_cases hlen : 8 ≤ bp.length
  · have h8 : (bp ++ (nsMarker ++ rest)).take 8 = bp.take 8 :=
      List.take_append_of_le_length hlen
    have hbp : nsMarker <+: bp := by
      rw [htake, h8]
      exact List.take_prefix 8 bp
    have hcon : nsMarker.isPrefixOf bp = true := List.isPrefixOf_iff_prefix.mpr hbp
    rw [hcon] at hpre
    simp at hpre
  · have hlt : bp.length < 8 := by omega
    have hpos : 0 < bp.length := by
      cases bp with
      | nil => exact absurd rfl hne
      | cons a l => simp
    have htk : (bp ++ (nsMarker ++ rest)).take 8 = bp ++ nsMarker.take (8 - bp.length) := by
      rw [List.take_append_eq_append_take, List.take_of_length_le (le_of_lt hlt),
        List.take_append_of_le_length (by have h8 : nsMarker.length = 8 := rfl; omega)]
    have hcomb : nsMarker = bp ++ nsMarker.take (8 - bp.length) := htake.trans htk
    have hdrop : nsMarker.drop bp.length = nsMarker.take (8 - bp.length) := by
      conv_lhs => rw [hcomb]
      rw [List.drop_left]
    exact nsMarker_no_border bp.length hlt hpos hdrop

theorem findSubAux_isSome (pat : Bytes) : ∀ (bs : Bytes) (i j : Nat),
    (findSubAux bs pat i).isSome = (findSubAux bs pat j).isSome := by
  intro bs
  induction bs with
  | nil =>
      intro i j
      unfold findSubAux
      cases hp : pat.isPrefixOf [] <;> simp [hp]
  | cons b t ih =>
      intro i j
      unfold findSubAux
      cases hp : pat.isPrefixOf (b :: t) <;> simp [hp]
      exact ih (i + 1) (j + 1)

theorem containsSub_cons (b : Nat) (p pat : Bytes) :
    containsSub (b :: p) pat = (pat.isPrefixOf (b :: p) || containsSub p pat) := by
  unfold containsSub findSub
  simp only [List.drop_zero]
  conv_lhs => unfold findSubAux
  cases hp : pat.isPrefixOf (b :: p) with
  | true => simp [hp]
  | false =>
      simp only [hp, Bool.false_eq_true, if_false, Bool.false_or]
      exact findSubAux_isSome pat p 1 0

theorem findSubAux_marker (rest : Bytes) : ∀ (p : Bytes) (i : Nat),
    containsSub p nsMarker = false →
    findSubAux (p ++ (nsMarker ++ rest)) nsMarker i = some (i + p.length) := by
  intro p
  induction p with
  | nil =>
      intro i _
      unfold findSubAux
      have hp : nsMarker.isPrefixOf ([] ++ (nsMarker ++ rest)) = true :=
        List.isPrefixOf_iff_prefix.mpr (by simp)
      simp [hp]
  | cons b p ih =>
      intro i hc
      rw [containsSub_cons] at hc
      have h1 : nsMarker.isPrefixOf (b :: p) = false := by
        cases h : nsMarker.isPrefixOf (b :: p) with
        | false => rfl
        | true => rw [h] at hc; simp at hc
      have h2 : containsSub p nsMarker = false := by
        cases h : containsSub p nsMarker with
        | false => rfl
        | true => rw [h] at hc; simp at hc
      have hno : nsMarker.isPrefixOf ((b :: p) ++ (nsMarker ++ rest)) = false :=
        ns_no_overlap (b :: p) rest (by simp) h1
      unfold findSubAux
      simp only [hno, Bool.false_eq_true, if_false, List.cons_append]
      rw [List.cons_append] at hno
      simp only [hno, Bool.false_eq_true, if_false]
      rw [ih (i + 1) h2]
      congr 1
      simp [List.length_cons]
      omega

/-- C5 (counterexample): with a fully arbitrary prefix the round trip
fails: a prefix that itself contains the marker, the type tag and a zero
length byte makes the extractor decode the prefix's (empty) payload
instead of `s`, so `extract(build(s)) = "" ≠ s` for `s = "a"`. -/
theorem extract_buildBlob_arbitrary_prefix_fails :
    extract_attributed_body_text
      (buildBlob (nsMarker ++ [1, 43, 0]) [97] []) = [] ∧
    extract_attributed_body_text
      (buildBlob (nsMarker ++ [1, 43, 0]) [97] []) ≠ [97] ∧
    ([97] : Bytes).length ≤ 255 := by
  refine ⟨by decide, by decide, by decide⟩

/-- C5 (amended): the blob round trip holds for every payload of at most
255 bytes and arbitrary suffix, provided the random prefix does not itself
contain the marker sequence: extracting from
`prefix ++ marker ++ tag ++ [len s] ++ s ++ suffix` returns exactly `s`. -/
theorem extract_buildBlob (pre s suf : Bytes) (hlen : s.length ≤ 255)
    (hpre : containsSub pre nsMarker = false) :
    extract_attributed_body_text (buildBlob pre s suf) = s := by
  have hshape : buildBlob pre s suf =
      pre ++ (nsMarker ++ ([1, 43] ++ ([s.length] ++ (s ++ suf)))) := by
    unfold buildBlob
    simp [List.append_assoc]
  have hfind1 : findSub (buildBlob pre s suf) nsMarker 0 = some pre.length := by
    unfold findSub
    rw [List.drop_zero, hshape, findSubAux_marker _ pre 0 hpre]
    simp
  have hdrop8 : (buildBlob pre s suf).drop (pre.length + 8) =
      [1, 43] ++ ([s.length] ++ (s ++ suf)) := by
    rw [hshape, ← List.append_assoc]
    have hl : (pre ++ nsMarker).length = pre.length + 8 := by
      simp [nsMarker]
    rw [← hl, List.drop_left]
  have hfind2 : findSub (buildBlob pre s suf) [1, 43] (pre.length + 8) =
      some (pre.length + 8) := by
    unfold findSub
    rw [hdrop8]
    conv_lhs => unfold findSubAux
    have hp : ([1, 43] : Bytes).isPrefixOf
        ([1, 43] ++ ([s.length] ++ (s ++ suf))) = true :=
      List.isPrefixOf_iff_prefix.mpr (List.prefix_append _ _)
    simp [hp]
  have hlt : pre.length + 10 < (buildBlob pre s suf).length := by
    rw [hshape]
    simp [nsMarker]
  have hgetD : (buildBlob pre s suf).getD (pre.length + 10) 0 = s.length := by
    have hsplit : buildBlob pre s suf =
        (pre ++ nsMarker ++ [1, 43]) ++ ([s.length] ++ (s ++ suf)) := by
      unfold buildBlob
      simp [List.append_assoc]
    have hl : (pre ++ nsMarker ++ [1, 43]).length = pre.length + 10 := by
      simp [nsMarker]
    rw [hsplit, List.getD_append_right _ _ _ _ (by omega), hl]
    simp
  have htext : ((buildBlob pre s suf).drop (pre.length + 11)).take s.length = s := by
    have hsplit : buildBlob pre s suf =
        (pre ++ nsMarker ++ [1, 43] ++ [s.length]) ++ (s ++ suf) := by
      unfold buildBlob
      simp [List.append_assoc]
    have hl : (pre ++ nsMarker ++ [1, 43] ++ [s.length]).length = pre.length + 11 := by
      simp [nsMarker]
    rw [hsplit, ← hl, List.drop_left]
    exact List.take_left s suf
  have hne : (buildBlob pre s suf).isEmpty = false := by
    rw [hshape]
    cases pre <;> rfl
  unfold extract_attributed_body_text
  rw [hne]
  simp only [Bool.false_eq_true, if_false, hfind1]
  have hns : nsMarker.length = 8 := rfl
  simp only [hns, hfind2]
  simp only [if_neg (by omega : ¬ pre.length + 8 + 2 ≥ (buildBlob pre s suf).length)]
  have h1011 : pre.length + 8 + 2 = pre.length + 10 := by omega
  rw [h1011, hgetD]
  have h11 : pre.length + 10 + 1 = pre.length + 11 := by omega
  rw [h11, htext]

/-- C5 witness: the amended round trip at a concrete prefix, payload and
suffix. -/
theorem extract_buildBlob_witness :
    (([104, 105] : Bytes).length ≤ 255) ∧
    containsSub [0, 78, 83] nsMarker = false ∧
    extract_attributed_body_text (buildBlob [0, 78, 83] [104, 105] [9, 9]) = [104, 105] :=
  ⟨by decide, by decide,
    extract_buildBlob [0, 78, 83] [104, 105] [9, 9] (by decide) (by decide)⟩

/-- C4 (counterexample): the claim that the extractor "returns the empty
string whenever fewer than L bytes remain after the length byte" is false:
the source slices `blob[text_start : text_start + text_len]`, and a Python
slice clamps at the end of the blob, so with L = 5 and only two remaining
bytes the call returns "ab", not "" (the repo's own
test_truncated_text asserts this truncating behaviour). -/
theorem extract_truncated_not_empty :
    extract_attributed_body_text (nsMarker ++ [1, 43] ++ [5] ++ [97, 98]) = [97, 98] ∧
    extract_attributed_body_text (nsMarker ++ [1, 43] ++ [5] ++ [97, 98]) ≠ [] := by
  refine ⟨by decide, by decide⟩

/-- C4 (amended): the extractor returns the empty string whenever the
`NSString` marker is absent, and whenever the two-byte type tag is absent
after the marker; when the marker, tag and length byte L are present but
fewer than L bytes remain, it returns the remaining bytes (the slice is
clamped at end of blob), not the empty string.  It is a total function, so
it never raises. -/
theorem extract_marker_and_truncation :
    (∀ blob, findSub blob nsMarker 0 = none → extract_attributed_body_text blob = []) ∧
    (∀ blob idx, findSub blob nsMarker 0 = some idx →
      findSub blob [1, 43] (idx + 8) = none → extract_attributed_body_text blob = []) ∧
    (∀ (L : Nat) (tail : Bytes), L ≤ 255 → tail.length < L →
      extract_attributed_body_text (nsMarker ++ [1, 43] ++ [L] ++ tail) = tail) := by
  refine ⟨?_, ?_, ?_⟩
  · intro blob h
    by_cases hb : blob.isEmpty
    · simp [extract_attributed_body_text, hb]
    · simp [extract_attributed_body_text, hb, h]
  · intro blob idx h1 h2
    have hns : nsMarker.length = 8 := rfl
    by_cases hb : blob.isEmpty
    · simp [extract_attributed_body_text, hb]
    · simp [extract_attributed_body_text, hb, h1, hns, h2]
  · intro L tail hL ht
    have hshape : nsMarker ++ [1, 43] ++ [L] ++ tail =
        nsMarker ++ ([1, 43] ++ ([L] ++ tail)) := by
      simp [List.append_assoc]
    have hfind1 : findSub (nsMarker ++ [1, 43] ++ [L] ++ tail) nsMarker 0 = some 0 := by
      unfold findSub
      rw [List.drop_zero]
      conv_lhs => unfold findSubAux
      have hp : nsMarker.isPrefixOf (nsMarker ++ [1, 43] ++ [L] ++ tail) = true := by
        apply List.isPrefixOf_iff_prefix.mpr
        rw [hshape]
        exact List.prefix_append _ _
      simp [hp]
    have hdrop8 : (nsMarker ++ [1, 43] ++ [L] ++ tail).drop 8 =
        [1, 43] ++ ([L] ++ tail) := by
      rw [hshape]
      have hl : nsMarker.length = 8 := rfl
      rw [← hl, List.drop_left]
    have hfind2 : findSub (nsMarker ++ [1, 43] ++ [L] ++ tail) [1, 43] 8 =
        some 8 := by
      unfold findSub
      rw [hdrop8]
      conv_lhs => unfold findSubAux
      have hp : ([1, 43] : Bytes).isPrefixOf ([1, 43] ++ ([L] ++ tail)) = true :=
        List.isPrefixOf_iff_prefix.mpr (List.prefix_append _ _)
      simp [hp]
    have hlt : 10 < (nsMarker ++ [1, 43] ++ [L] ++ tail).length := by
      simp [nsMarker]
    have hgetD : (nsMarker ++ [1, 43] ++ [L] ++ tail).getD 10 0 = L := by
      have hsplit : nsMarker ++ [1, 43] ++ [L] ++ tail =
          (nsMarker ++ [1, 43]) ++ ([L] ++ tail) := by
        simp [List.append_assoc]
      have hl : (nsMarker ++ [1, 43]).length = 10 := rfl
      rw [hsplit, List.getD_append_right _ _ _ _ (by omega), hl]
      simp
    have htext : ((nsMarker ++ [1, 43] ++ [L] ++ tail).drop 11).take L = tail := by
      have hsplit : nsMarker ++ [1, 43] ++ [L] ++ tail =
          (nsMarker ++ [1, 43] ++ [L]) ++ tail := by
        simp [List.append_assoc]
      have hl : (nsMarker ++ [1, 43] ++ [L]).length = 11 := rfl
      rw [hsplit, ← hl, List.drop_left]
      exact List.take_of_length_le (le_of_lt ht)
    have hne : (nsMarker ++ [1, 43] ++ [L] ++ tail).isEmpty = false := rfl
    unfold extract_attributed_body_text
    rw [hne]
    simp only [Bool.false_eq_true, if_false, hfind1]
    have hns : nsMarker.length = 8 := rfl
    simp only [hns, Nat.zero_add, hfind2]
    simp only [if_neg (by omega : ¬ 8 + 2 ≥ (nsMarker ++ [1, 43] ++ [L] ++ tail).length)]
    have h10 : 8 + 2 = 10 := rfl
    rw [h10, hgetD]
    have h11 : 10 + 1 = 11 := rfl
    rw [h11, htext]

/-- C4 witness: the amended theorem applied at concrete blobs for each of
its three parts. -/
theorem extract_marker_and_truncation_witness :
    extract_attributed_body_text [0, 1, 2] = [] ∧
    extract_attributed_body_text nsMarker = [] ∧
    extract_attributed_body_text (nsMarker ++ [1, 43] ++ [5] ++ [97, 98]) = [97, 98] :=
  ⟨extract_marker_and_truncation.1 [0, 1, 2] (by decide),
   extract_marker_and_truncation.2.1 nsMarker 0 (by decide) (by decide),
   extract_marker_and_truncation.2.2 5 [97, 98] (by decide) (by decide)⟩
